import Mathlib

/-!
Shallow embedding of `src/mod.ts` (easyemit): a single-class event emitter
keeping two string-keyed object maps (`onListeners`, `onceListeners`) from
event name to an array of listener callbacks, plus a `maxListeners` bound.

Modelling choices, all read off the source:
* Event identifiers and listeners are opaque, identity-compared values;
  both are modelled as `Nat`.
* A JS object used as a map is modelled as an association list in key
  insertion order (`ObjMap`).  The source distinguishes an absent key from a
  key stored with the value `undefined` (`removeAllListeners` assigns
  `undefined`; `eventNames` enumerates keys and filters on
  `!== undefined`), so the stored value is an `Option (List Listener)`:
  `none` is the stored `undefined`.
* Property access `this.onListeners[event]` yields `undefined` both for an
  absent key and for a key holding `undefined`; `jsGet` is that coalesced
  read.
* Listeners are opaque: invoking one is recorded in a call log as the pair
  (listener, argument list) and has no effect on the registry.  No claim
  under verification involves a listener that re-enters the emitter.
* A thrown `Error` is modelled as the message string the source builds;
  operations that can throw return the mutated state together with
  `Option String` (the mutation precedes the throw in the source, so it is
  kept in both cases).
-/

namespace EasyEmit

abbrev Event := Nat
abbrev Listener := Nat

/-- A JS object used as a map: association list in key insertion order; a
stored `none` is the JS value `undefined` sitting under a present key. -/
abbrev ObjMap := List (Event × Option (List Listener))

/-- Raw key lookup: `none` when the key is absent from the object. -/
def objGet : ObjMap → Event → Option (Option (List Listener))
  | [], _ => none
  | (k, v) :: rest, e => if k = e then some v else objGet rest e

/-- Property assignment `m[e] = v`: overwrite in place when the key exists
(keeping its position in key order), otherwise append the key. -/
def objSet : ObjMap → Event → Option (List Listener) → ObjMap
  | [], e, v => [(e, v)]
  | (k, w) :: rest, e, v =>
    if k = e then (k, v) :: rest else (k, w) :: objSet rest e v

/-- The coalesced read `this.map[event]`: an absent key and a key stored
with `undefined` both read back as `undefined` (`none`). -/
def jsGet (m : ObjMap) (e : Event) : Option (List Listener) :=
  (objGet m e).getD none

/-- `Array.prototype.indexOf` by strict equality: `none` is JS `-1`. -/
def jsIndexOf (f : Listener) : List Listener → Option Nat
  | [] => none
  | x :: xs => if x = f then some 0 else (jsIndexOf f xs).map (· + 1)

/-- The state of one `EventEmitter` instance: its two listener maps and its
`maxListeners` field. -/
structure EmitterState where
  onListeners : ObjMap
  onceListeners : ObjMap
  maxListeners : Nat
deriving DecidableEq, Repr

/-- `static defaultMaxListeners = 10`. -/
def defaultMaxListeners : Nat := 10

/-- A freshly constructed emitter: both maps empty,
`maxListeners = EventEmitter.defaultMaxListeners`. -/
def init : EmitterState :=
  { onListeners := [], onceListeners := [], maxListeners := defaultMaxListeners }

/-- The string the source interpolates into the `Error` it throws when a
list outgrows `maxListeners`.  The template is identical in `on'`, `once`,
`prependListener` and `prependOnceListener`; the only interpolated datum is
the list length — the word \x22test\x22 before \x22listeners\x22 is literal
text of the template, not the event name. -/
def limitMessage (count : Nat) : String :=
  "Possible EventEmitter memory leak detected. " ++ toString count ++
    " test listeners added to [EventEmitter]. Use emitter.setMaxListeners() to increase limit"

/-- `on(event, listener)`: ensure the persistent array exists, push, then
throw when its new length strictly exceeds `maxListeners` (push first, the
throw does not roll it back). -/
def on' (s : EmitterState) (e : Event) (f : Listener) : EmitterState × Option String :=
  let s :=
    if jsGet s.onListeners e = none then
      { s with onListeners := objSet s.onListeners e (some []) }
    else s
  let l := ((jsGet s.onListeners e).getD []) ++ [f]
  let s := { s with onListeners := objSet s.onListeners e (some l) }
  if l.length > s.maxListeners then (s, some (limitMessage l.length)) else (s, none)

/-- `once(event, listener)`: as `on'` but on the one-shot map. -/
def once (s : EmitterState) (e : Event) (f : Listener) : EmitterState × Option String :=
  let s :=
    if jsGet s.onceListeners e = none then
      { s with onceListeners := objSet s.onceListeners e (some []) }
    else s
  let l := ((jsGet s.onceListeners e).getD []) ++ [f]
  let s := { s with onceListeners := objSet s.onceListeners e (some l) }
  if l.length > s.maxListeners then (s, some (limitMessage l.length)) else (s, none)

/-- `prependListener(event, listener)`: as `on'` but `unshift` instead of
`push`. -/
def prependListener (s : EmitterState) (e : Event) (f : Listener) :
    EmitterState × Option String :=
  let s :=
    if jsGet s.onListeners e = none then
      { s with onListeners := objSet s.onListeners e (some []) }
    else s
  let l := f :: ((jsGet s.onListeners e).getD [])
  let s := { s with onListeners := objSet s.onListeners e (some l) }
  if l.length > s.maxListeners then (s, some (limitMessage l.length)) else (s, none)

/-- `prependOnceListener(event, listener)`: as `once` but `unshift`. -/
def prependOnceListener (s : EmitterState) (e : Event) (f : Listener) :
    EmitterState × Option String :=
  let s :=
    if jsGet s.onceListeners e = none then
      { s with onceListeners := objSet s.onceListeners e (some []) }
    else s
  let l := f :: ((jsGet s.onceListeners e).getD [])
  let s := { s with onceListeners := objSet s.onceListeners e (some l) }
  if l.length > s.maxListeners then (s, some (limitMessage l.length)) else (s, none)

/-- The second block of `off`: look `listener` up in the persistent array and
splice out its first occurrence; `indexOf === -1` returns early. -/
def offOn (s : EmitterState) (e : Event) (f : Listener) : EmitterState :=
  match jsGet s.onListeners e with
  | some pl =>
    match jsIndexOf f pl with
    | none => s
    | some j => { s with onListeners := objSet s.onListeners e (some (pl.eraseIdx j)) }
  | none => s

/-- `off(event, listener)`: when a once array exists it is searched first;
`indexOf === -1` there returns from the whole method (the persistent array
is then never examined), otherwise the once entry is spliced out and control
falls through to the persistent block. -/
def off (s : EmitterState) (e : Event) (f : Listener) : EmitterState :=
  match jsGet s.onceListeners e with
  | some ol =>
    match jsIndexOf f ol with
    | none => s
    | some i =>
      offOn { s with onceListeners := objSet s.onceListeners e (some (ol.eraseIdx i)) } e f
  | none => offOn s e f

/-- Alias field `addListener = this.on`. -/
def addListener : EmitterState → Event → Listener → EmitterState × Option String := on'

/-- Alias field `removeListener = this.off`. -/
def removeListener : EmitterState → Event → Listener → EmitterState := off

/-- One pass of `Array.prototype.forEach` over the once array as the source
runs it: the iteration bound `n` counts down from the length captured when
`forEach` starts, `k` is the current index, and the array is re-read from
the (mutated) state each step — `forEach` only visits index `k` when it is
still inside the current array.  The callback invokes the listener and then
calls `off(event, listener)`. -/
def onceStep (e : Event) (args : List Nat) :
    Nat → Nat → EmitterState → EmitterState × List (Listener × List Nat)
  | _, 0, s => (s, [])
  | k, n + 1, s =>
    let cur := (jsGet s.onceListeners e).getD []
    if k < cur.length then
      let f := cur.getD k 0
      let s1 := off s e f
      let r := onceStep e args (k + 1) n s1
      (r.1, (f, args) :: r.2)
    else
      onceStep e args (k + 1) n s

/-- `emit(event, ...args)`: returns the final state, the boolean result, and
the call log (listener, args) in invocation order.  The persistent pass is a
plain map because listeners are opaque in this model and the loop body
mutates nothing; the once pass is `onceStep`. -/
def emit (s : EmitterState) (e : Event) (args : List Nat) :
    EmitterState × Bool × List (Listener × List Nat) :=
  match jsGet s.onListeners e with
  | none => (s, false, [])
  | some pl =>
    if pl.length = 0 then (s, false, [])
    else
      let callsOn : List (Listener × List Nat) := pl.map (fun f => (f, args))
      match jsGet s.onceListeners e with
      | none => (s, true, callsOn)
      | some ol =>
        if ol.length = 0 then (s, true, callsOn)
        else
          let r := onceStep e args 0 ol.length s
          (r.1, true, callsOn ++ r.2)

/-- Keys of the object whose stored value is not `undefined`:
`Object.keys(m).filter(k => m[k] !== undefined)`. -/
def definedKeys (m : ObjMap) : List Event :=
  (m.map Prod.fst).filter (fun k => jsGet m k ≠ none)

/-- `arr.filter((v, i, a) => a.indexOf(v) === i)`: keep each value's first
occurrence only. -/
def dedupJS (l : List Event) : List Event :=
  (l.enum.filter (fun p => jsIndexOf p.2 l = some p.1)).map Prod.snd

/-- `eventNames()`: defined persistent keys, then defined once keys,
concatenated and de-duplicated keeping first occurrences. -/
def eventNames (s : EmitterState) : List Event :=
  dedupJS (definedKeys s.onListeners ++ definedKeys s.onceListeners)

/-- `listenerCount(event)`: `(on?.length ?? 0) + (once?.length ?? 0)`. -/
def listenerCount (s : EmitterState) (e : Event) : Nat :=
  ((jsGet s.onListeners e).getD []).length + ((jsGet s.onceListeners e).getD []).length

/-- `listeners(event)`: `(on ?? []).concat(once ?? [])`. -/
def listeners (s : EmitterState) (e : Event) : List Listener :=
  ((jsGet s.onListeners e).getD []) ++ ((jsGet s.onceListeners e).getD [])

/-- The guard `if (!events)` of `removeAllListeners`: `events` is a rest
parameter, so at runtime it is always an array object, and an array is never
falsy in JS — the guard can never hold, whatever the call supplies. -/
def restParamFalsy : Bool := false

/-- `removeAllListeners(...events)`: the `!events` branch would reset both
maps, but it is unreachable (see `restParamFalsy`); the live branch assigns
`undefined` under each given key in both maps. -/
def removeAllListeners (s : EmitterState) (events : List Event) : EmitterState :=
  if restParamFalsy then
    { s with onListeners := [], onceListeners := [] }
  else
    events.foldl
      (fun acc e =>
        { acc with
          onListeners := objSet acc.onListeners e none
          onceListeners := objSet acc.onceListeners e none })
      s

/-- `setMaxListeners(n)`. -/
def setMaxListeners (s : EmitterState) (n : Nat) : EmitterState :=
  { s with maxListeners := n }

/-- `getMaxListeners()`. -/
def getMaxListeners (s : EmitterState) : Nat :=
  s.maxListeners

/-- State-passing form of `eventNames()`: the method body only reads the two
maps — it contains no assignment — so the instance comes back unchanged next
to the computed value. -/
def eventNamesOp (s : EmitterState) : List Event × EmitterState :=
  (eventNames s, s)

/-- State-passing form of `listenerCount(event)`: read-only body. -/
def listenerCountOp (s : EmitterState) (e : Event) : Nat × EmitterState :=
  (listenerCount s e, s)

/-- State-passing form of `listeners(event)`: read-only body. -/
def listenersOp (s : EmitterState) (e : Event) : List Listener × EmitterState :=
  (listeners s e, s)

/-- State-passing form of `getMaxListeners()`: read-only body. -/
def getMaxListenersOp (s : EmitterState) : Nat × EmitterState :=
  (getMaxListeners s, s)

/-- De-duplication keeping each value's first occurrence, in recursive form
(used as the spec-side reading of \x22de-duplicated preserving first
occurrence\x22, and proved equal to the source's `dedupJS`). -/
def dedupFirst : List Event → List Event
  | [] => []
  | x :: xs => x :: dedupFirst (xs.filter (fun y => y ≠ x))
termination_by l => l.length
decreasing_by
  simp only [List.length_cons]
  exact Nat.lt_succ_of_le (List.length_filter_le _ _)

/-- Accumulator form of first-occurrence selection: `firstOccs seen l` keeps
the elements of `l` not in `seen` at their first occurrence, in order. -/
def firstOccs : List Event → List Event → List Event
  | _, [] => []
  | seen, x :: xs =>
    if x ∈ seen then firstOccs seen xs else x :: firstOccs (seen ++ [x]) xs

/-- Spec-side rendering of the claimed `eventNames()` contract: keys of the
persistent mapping whose value is not the removed sentinel, followed by the
keys unique to the one-shot mapping, concatenated and de-duplicated
preserving first occurrence. -/
def eventNamesSpec (s : EmitterState) : List Event :=
  dedupFirst (definedKeys s.onListeners ++
    (definedKeys s.onceListeners).filter (fun k => ¬ k ∈ definedKeys s.onListeners))

end EasyEmit

namespace EasyEmit

theorem objGet_objSet_self (m : ObjMap) (e : Event) (v : Option (List Listener)) :
    objGet (objSet m e v) e = some v := by
  induction m with
  | nil => simp [objGet, objSet]
  | cons p rest ih =>
    obtain ⟨k, w⟩ := p
    by_cases h : k = e
    · simp [objGet, objSet, h]
    · simp [objGet, objSet, h, ih]

theorem objGet_objSet_ne (m : ObjMap) {e e' : Event} (h : e ≠ e')
    (v : Option (List Listener)) : objGet (objSet m e v) e' = objGet m e' := by
  induction m with
  | nil => simp [objGet, objSet, h]
  | cons p rest ih =>
    obtain ⟨k, w⟩ := p
    by_cases hk : k = e
    · subst hk
      simp [objGet, objSet, h]
    · simp [objGet, objSet, hk, ih]

theorem jsGet_objSet_self (m : ObjMap) (e : Event) (v : Option (List Listener)) :
    jsGet (objSet m e v) e = v := by
  simp [jsGet, objGet_objSet_self]

theorem jsGet_objSet_ne (m : ObjMap) {e e' : Event} (h : e ≠ e')
    (v : Option (List Listener)) : jsGet (objSet m e v) e' = jsGet m e' := by
  simp [jsGet, objGet_objSet_ne m h]

theorem jsIndexOf_eq_none (f : Listener) (l : List Listener) :
    jsIndexOf f l = none ↔ f ∉ l := by
  induction l with
  | nil => simp [jsIndexOf]
  | cons x xs ih =>
    by_cases h : x = f
    · subst h
      simp [jsIndexOf]
    · simp [jsIndexOf, h, ih, Ne.symm h]

theorem jsIndexOf_lt_length {f : Listener} :
    ∀ {l : List Listener} {i : Nat}, jsIndexOf f l = some i → i < l.length := by
  intro l
  induction l with
  | nil => intro i h; simp [jsIndexOf] at h
  | cons x xs ih =>
    intro i h
    by_cases hx : x = f
    · simp only [jsIndexOf, if_pos hx, Option.some.injEq] at h
      subst h
      simp
    · simp only [jsIndexOf, if_neg hx, Option.map_eq_some'] at h
      obtain ⟨j, hj, rfl⟩ := h
      have := ih hj
      simp only [List.length_cons]
      omega

theorem eraseIdx_jsIndexOf {f : Listener} :
    ∀ {l : List Listener} {i : Nat}, jsIndexOf f l = some i → l.eraseIdx i = l.erase f := by
  intro l
  induction l with
  | nil => intro i h; simp [jsIndexOf] at h
  | cons x xs ih =>
    intro i h
    by_cases hx : x = f
    · subst hx
      simp [jsIndexOf] at h
      subst h
      simp [List.eraseIdx, List.erase_cons_head]
    · simp only [jsIndexOf, if_neg hx, Option.map_eq_some'] at h
      obtain ⟨j, hj, rfl⟩ := h
      simp [List.eraseIdx, ih hj, List.erase_cons_tail, hx]

theorem jsIndexOf_append_of_mem {f : Listener} :
    ∀ {A : List Listener}, f ∈ A → ∀ B, jsIndexOf f (A ++ B) = jsIndexOf f A := by
  intro A
  induction A with
  | nil => intro h; simp at h
  | cons x xs ih =>
    intro h B
    by_cases hx : x = f
    · simp [jsIndexOf, hx]
    · have hmem : f ∈ xs := by
        rcases List.mem_cons.mp h with h1 | h1
        · exact absurd h1.symm hx
        · exact h1
      simp [jsIndexOf, hx, ih hmem]

theorem jsIndexOf_append_of_not_mem {f : Listener} :
    ∀ {A : List Listener}, f ∉ A → ∀ B,
      jsIndexOf f (A ++ B) = (jsIndexOf f B).map (A.length + ·) := by
  intro A
  induction A with
  | nil =>
    intro _ B
    simp
  | cons x xs ih =>
    intro h B
    have hx : x ≠ f := by
      intro hx
      exact h (hx ▸ List.mem_cons_self x xs)
    have hmem : f ∉ xs := fun hm => h (List.mem_cons_of_mem x hm)
    have hstep : jsIndexOf f ((x :: xs) ++ B) = (jsIndexOf f (xs ++ B)).map (· + 1) := by
      simp [jsIndexOf, hx]
    rw [hstep, ih hmem B]
    cases jsIndexOf f B with
    | none => rfl
    | some j =>
      simp only [Option.map_some', Option.map_map, Function.comp, List.length_cons,
        Option.some.injEq]
      omega

end EasyEmit

namespace EasyEmit

/-- C1: counterexample — listener 10 sits only in the persistent list for
event 1 while a one-shot list [20] exists that does not contain it; the claim
says `off(1, 10)` still removes 10 from the persistent list, but the call is
a no-op (the `indexOf === -1` early return fires before the persistent list
is examined).  Moreover, with listener 10 in both lists, the claim says a
single `off` call removes only the one-shot entry, yet the call empties both
lists, removing two entries. -/
theorem off_counterexample :
    off ⟨[(1, some [10])], [(1, some [20])], 10⟩ 1 10 =
      ⟨[(1, some [10])], [(1, some [20])], 10⟩ ∧
    off ⟨[(1, some [10])], [(1, some [10])], 10⟩ 1 10 =
      ⟨[(1, some [])], [(1, some [])], 10⟩ := by
  decide

/-- C2: evaluation at the failing input — persistent list [30] and one-shot
list [10, 20] for event 1.  The claim says both 10 and 20 are invoked and the
one-shot list ends empty; the code invokes 30 and 10 only and leaves 20
registered, because the `forEach` over the once array moves to index 1 after
the callback's `off` has spliced the array down to length 1. -/
theorem emit_skips_second_once_listener :
    emit ⟨[(1, some [30])], [(1, some [10, 20])], 10⟩ 1 [] =
      (⟨[(1, some [30])], [(1, some [20])], 10⟩, true, [(30, []), (10, [])]) := by
  decide

/-- C4: evaluation at the failing input — a registry holding one persistent
listener for event 1.  The claim (and the method's own doc comment) says a
zero-argument `removeAllListeners()` resets the registry to a fresh empty
state, but the call removes nothing: the `!events` guard never holds for a
rest parameter, so the clear-all branch is dead code.  Clearing with an
explicit identifier does work as described. -/
theorem removeAllListeners_noargs_noop :
    removeAllListeners ⟨[(1, some [7])], [], 10⟩ [] = ⟨[(1, some [7])], [], 10⟩ ∧
    listenerCount ⟨[(1, some [7])], [], 10⟩ 1 = 1 ∧
    listenerCount (removeAllListeners ⟨[(1, some [7])], [], 10⟩ [1]) 1 = 0 ∧
    eventNames (removeAllListeners ⟨[(1, some [7])], [], 10⟩ [1]) = [] ∧
    emit (removeAllListeners ⟨[(1, some [7])], [], 10⟩ [1]) 1 [] =
      (removeAllListeners ⟨[(1, some [7])], [], 10⟩ [1], false, []) := by
  decide

/-- C6: counterexample — with the threshold at 0, adding listener 10 for
event 1 and adding it for event 2 both raise, and the two raised errors are
the same value: the message interpolates only the post-insertion length, so
the error carries no trace of which event overflowed (1 ≠ 2, yet the errors
coincide). -/
theorem limit_error_same_for_distinct_events :
    (on' ⟨[], [], 0⟩ 1 10).2 = (on' ⟨[], [], 0⟩ 2 10).2 ∧
    (on' ⟨[], [], 0⟩ 1 10).2.isSome = true ∧ (1 : Event) ≠ 2 :=
  ⟨rfl, rfl, by decide⟩

/-- C10: the query operations eventNames(), listenerCount(e), listeners(e)
and getMaxListeners() leave the registry entirely unchanged — their bodies
only read the two mappings and the threshold field, so the state they return
is the state they were given. -/
theorem queries_leave_state_unchanged (s : EmitterState) (e : Event) :
    (eventNamesOp s).2 = s ∧ (listenerCountOp s e).2 = s ∧
    (listenersOp s e).2 = s ∧ (getMaxListenersOp s).2 = s :=
  ⟨rfl, rfl, rfl, rfl⟩

end EasyEmit

namespace EasyEmit

/-- C3: `emit` is gated on the persistent list alone — when it is absent or
empty the call returns false, logs no invocation and leaves the registry
untouched, whatever the one-shot list holds; in particular after `once`
alone on a fresh registry, emitting invokes nothing and returns false.  When
the persistent list is non-empty, `emit` returns true and its call log
begins with every persistent entry, in order, paired with the emitted
arguments. -/
theorem emit_persistent_gate (s : EmitterState) (e : Event) (args : List Nat) :
    (jsGet s.onListeners e = none → emit s e args = (s, false, [])) ∧
    (jsGet s.onListeners e = some [] → emit s e args = (s, false, [])) ∧
    (∀ pl, jsGet s.onListeners e = some pl → pl ≠ [] →
      (emit s e args).2.1 = true ∧
      ∃ rest, (emit s e args).2.2 = pl.map (fun f => (f, args)) ++ rest) ∧
    (∀ e' f, emit (once init e' f).1 e' [] = ((once init e' f).1, false, [])) := by
  refine ⟨?_, ?_, ?_, ?_⟩
  · intro h
    simp [emit, h]
  · intro h
    simp [emit, h]
  · intro pl h hne
    have hlen : ¬ pl.length = 0 := by
      simpa [List.length_eq_zero] using hne
    simp only [emit, h, if_neg hlen]
    cases holc : jsGet s.onceListeners e with
    | none => exact ⟨rfl, [], by simp⟩
    | some ol =>
      by_cases hol : ol.length = 0
      · have hol' : ol = [] := List.length_eq_zero.mp hol
        refine ⟨?_, [], ?_⟩ <;> simp [hol']
      · have hol' : ¬ ol = [] := by simpa [List.length_eq_zero] using hol
        refine ⟨?_, (onceStep e args 0 ol.length s).2, ?_⟩ <;> simp [hol']
  · intro e' f
    have honce : (once init e' f).1 =
        { onListeners := [], onceListeners := [(e', some [f])], maxListeners := 10 } := by
      simp [once, init, jsGet, objGet, objSet, defaultMaxListeners]
    rw [honce]
    simp [emit, jsGet, objGet]

end EasyEmit

namespace EasyEmit

theorem ite_pair_fst {c : Prop} [Decidable c] (a : EmitterState) (x y : Option String) :
    (if c then (a, x) else (a, y)).1 = a := by
  split <;> rfl

theorem ite_pair_snd_isSome {c : Prop} [Decidable c] (a : EmitterState) (m : String) :
    (if c then (a, some m) else (a, none)).2.isSome = true ↔ c := by
  split <;> rename_i h <;> simp [h]

end EasyEmit

namespace EasyEmit

theorem add_on_check (s : EmitterState) (e : Event) (f : Listener) :
    jsGet (on' s e f).1.onListeners e = some (((jsGet s.onListeners e).getD []) ++ [f]) ∧
    ((on' s e f).2.isSome = true ↔ ((jsGet s.onListeners e).getD []).length + 1 > s.maxListeners) ∧
    listenerCount (on' s e f).1 e = listenerCount s e + 1 ∧
    (on' s e f).1.maxListeners = s.maxListeners := by
  by_cases h : jsGet s.onListeners e = none
  · refine ⟨?_, ?_, ?_, ?_⟩ <;>
      simp [on', h, jsGet_objSet_self, listenerCount, ite_pair_fst, ite_pair_snd_isSome] <;>
      omega
  · obtain ⟨pl, hpl⟩ := Option.ne_none_iff_exists'.mp h
    refine ⟨?_, ?_, ?_, ?_⟩ <;>
      simp [on', hpl, jsGet_objSet_self, listenerCount, ite_pair_fst, ite_pair_snd_isSome] <;>
      omega

end EasyEmit

namespace EasyEmit

theorem add_once_check (s : EmitterState) (e : Event) (f : Listener) :
    jsGet (once s e f).1.onceListeners e = some (((jsGet s.onceListeners e).getD []) ++ [f]) ∧
    ((once s e f).2.isSome = true ↔ ((jsGet s.onceListeners e).getD []).length + 1 > s.maxListeners) ∧
    listenerCount (once s e f).1 e = listenerCount s e + 1 ∧
    (once s e f).1.maxListeners = s.maxListeners := by
  by_cases h : jsGet s.onceListeners e = none
  · refine ⟨?_, ?_, ?_, ?_⟩ <;>
      simp [once, h, jsGet_objSet_self, listenerCount, ite_pair_fst, ite_pair_snd_isSome] <;>
      omega
  · obtain ⟨ol, hol⟩ := Option.ne_none_iff_exists'.mp h
    refine ⟨?_, ?_, ?_, ?_⟩ <;>
      simp [once, hol, jsGet_objSet_self, listenerCount, ite_pair_fst, ite_pair_snd_isSome] <;>
      omega

theorem add_prepend_check (s : EmitterState) (e : Event) (f : Listener) :
    jsGet (prependListener s e f).1.onListeners e = some (f :: ((jsGet s.onListeners e).getD [])) ∧
    ((prependListener s e f).2.isSome = true ↔
      ((jsGet s.onListeners e).getD []).length + 1 > s.maxListeners) ∧
    listenerCount (prependListener s e f).1 e = listenerCount s e + 1 ∧
    (prependListener s e f).1.maxListeners = s.maxListeners := by
  by_cases h : jsGet s.onListeners e = none
  · refine ⟨?_, ?_, ?_, ?_⟩ <;>
      simp [prependListener, h, jsGet_objSet_self, listenerCount, ite_pair_fst,
        ite_pair_snd_isSome] <;>
      omega
  · obtain ⟨pl, hpl⟩ := Option.ne_none_iff_exists'.mp h
    refine ⟨?_, ?_, ?_, ?_⟩ <;>
      simp [prependListener, hpl, jsGet_objSet_self, listenerCount, ite_pair_fst,
        ite_pair_snd_isSome] <;>
      omega

theorem add_prependOnce_check (s : EmitterState) (e : Event) (f : Listener) :
    jsGet (prependOnceListener s e f).1.onceListeners e =
      some (f :: ((jsGet s.onceListeners e).getD [])) ∧
    ((prependOnceListener s e f).2.isSome = true ↔
      ((jsGet s.onceListeners e).getD []).length + 1 > s.maxListeners) ∧
    listenerCount (prependOnceListener s e f).1 e = listenerCount s e + 1 ∧
    (prependOnceListener s e f).1.maxListeners = s.maxListeners := by
  by_cases h : jsGet s.onceListeners e = none
  · refine ⟨?_, ?_, ?_, ?_⟩ <;>
      simp [prependOnceListener, h, jsGet_objSet_self, listenerCount, ite_pair_fst,
        ite_pair_snd_isSome] <;>
      omega
  · obtain ⟨ol, hol⟩ := Option.ne_none_iff_exists'.mp h
    refine ⟨?_, ?_, ?_, ?_⟩ <;>
      simp [prependOnceListener, hol, jsGet_objSet_self, listenerCount, ite_pair_fst,
        ite_pair_snd_isSome] <;>
      omega

/-- C5: each add operation stores the grown list unconditionally and raises
exactly when the new length of the targeted list strictly exceeds the current
threshold: the returned error is present iff (old length) + 1 > maxListeners;
the inserted listener is kept either way (the grown list is what the registry
stores and the event's total listener count rises by one), the threshold is
unchanged, and `addListener` is `on` itself. -/
theorem add_ops_limit_check (s : EmitterState) (e : Event) (f : Listener) :
    (jsGet (on' s e f).1.onListeners e = some (((jsGet s.onListeners e).getD []) ++ [f]) ∧
      ((on' s e f).2.isSome = true ↔
        ((jsGet s.onListeners e).getD []).length + 1 > s.maxListeners) ∧
      listenerCount (on' s e f).1 e = listenerCount s e + 1 ∧
      (on' s e f).1.maxListeners = s.maxListeners) ∧
    (jsGet (once s e f).1.onceListeners e = some (((jsGet s.onceListeners e).getD []) ++ [f]) ∧
      ((once s e f).2.isSome = true ↔
        ((jsGet s.onceListeners e).getD []).length + 1 > s.maxListeners) ∧
      listenerCount (once s e f).1 e = listenerCount s e + 1 ∧
      (once s e f).1.maxListeners = s.maxListeners) ∧
    (jsGet (prependListener s e f).1.onListeners e =
        some (f :: ((jsGet s.onListeners e).getD [])) ∧
      ((prependListener s e f).2.isSome = true ↔
        ((jsGet s.onListeners e).getD []).length + 1 > s.maxListeners) ∧
      listenerCount (prependListener s e f).1 e = listenerCount s e + 1 ∧
      (prependListener s e f).1.maxListeners = s.maxListeners) ∧
    (jsGet (prependOnceListener s e f).1.onceListeners e =
        some (f :: ((jsGet s.onceListeners e).getD [])) ∧
      ((prependOnceListener s e f).2.isSome = true ↔
        ((jsGet s.onceListeners e).getD []).length + 1 > s.maxListeners) ∧
      listenerCount (prependOnceListener s e f).1 e = listenerCount s e + 1 ∧
      (prependOnceListener s e f).1.maxListeners = s.maxListeners) ∧
    addListener = on' :=
  ⟨add_on_check s e f, add_once_check s e f, add_prepend_check s e f,
    add_prependOnce_check s e f, rfl⟩

end EasyEmit

namespace EasyEmit

/-- C9: `prependListener` and `prependOnceListener` insert at index 0 of the
respective list rather than appending, subject to the same post-insertion
threshold check as on/once (error present iff the new length strictly
exceeds the threshold); and prepending f when the persistent list for an
event is [g] yields invocation order f then g on the next emit. -/
theorem prepend_inserts_at_head (s : EmitterState) (e : Event) (f : Listener) :
    jsGet (prependListener s e f).1.onListeners e =
      some (f :: ((jsGet s.onListeners e).getD [])) ∧
    ((prependListener s e f).2.isSome = true ↔
      ((jsGet s.onListeners e).getD []).length + 1 > s.maxListeners) ∧
    jsGet (prependOnceListener s e f).1.onceListeners e =
      some (f :: ((jsGet s.onceListeners e).getD [])) ∧
    ((prependOnceListener s e f).2.isSome = true ↔
      ((jsGet s.onceListeners e).getD []).length + 1 > s.maxListeners) ∧
    (∀ e' g' f', emit (prependListener (on' init e' g').1 e' f').1 e' [] =
      ((prependListener (on' init e' g').1 e' f').1, true, [(f', []), (g', [])])) := by
  refine ⟨(add_prepend_check s e f).1, (add_prepend_check s e f).2.1,
    (add_prependOnce_check s e f).1, (add_prependOnce_check s e f).2.1, ?_⟩
  intro e' g' f'
  have h1 : (prependListener (on' init e' g').1 e' f').1 =
      ⟨[(e', some [f', g'])], [], 10⟩ := by
    simp [on', prependListener, init, jsGet, objGet, objSet, defaultMaxListeners]
  rw [h1]
  simp [emit, jsGet, objGet]

/-- C7: with a persistent listener g and a one-shot listener f registered on
the same event of a fresh registry, one emit invokes g then f exactly once
each; afterwards f is deregistered while g stays, and a second emit invokes
g again but not f and returns true. -/
theorem on_once_emit_twice (e : Event) (f g : Listener) (h : f ≠ g) :
    (emit (once (on' init e g).1 e f).1 e []).2.2 = [(g, []), (f, [])] ∧
    (emit (once (on' init e g).1 e f).1 e []).2.1 = true ∧
    listeners (emit (once (on' init e g).1 e f).1 e []).1 e = [g] ∧
    (emit ((emit (once (on' init e g).1 e f).1 e []).1) e []).2.2 = [(g, [])] ∧
    (emit ((emit (once (on' init e g).1 e f).1 e []).1) e []).2.1 = true := by
  have h2 : (once (on' init e g).1 e f).1 =
      ⟨[(e, some [g])], [(e, some [f])], 10⟩ := by
    simp [on', once, init, jsGet, objGet, objSet, defaultMaxListeners]
  rw [h2]
  have h3 : emit ⟨[(e, some [g])], [(e, some [f])], 10⟩ e [] =
      (⟨[(e, some [g])], [(e, some [])], 10⟩, true, [(g, []), (f, [])]) := by
    simp [emit, onceStep, off, offOn, jsGet, objGet, objSet, jsIndexOf, Ne.symm h]
  rw [h3]
  have h4 : emit ⟨[(e, some [g])], [(e, some [])], 10⟩ e [] =
      (⟨[(e, some [g])], [(e, some [])], 10⟩, true, [(g, [])]) := by
    simp [emit, jsGet, objGet]
  rw [h4]
  exact ⟨rfl, rfl, by simp [listeners, jsGet, objGet], rfl, rfl⟩

/-- C7 witness: the scenario theorem instantiated at event 1 with one-shot
listener 3 and persistent listener 2. -/
theorem on_once_emit_twice_witness :
    (emit (once (on' init 1 2).1 1 3).1 1 []).2.2 = [(2, []), (3, [])] ∧
    (emit (once (on' init 1 2).1 1 3).1 1 []).2.1 = true ∧
    listeners (emit (once (on' init 1 2).1 1 3).1 1 []).1 1 = [2] ∧
    (emit ((emit (once (on' init 1 2).1 1 3).1 1 []).1) 1 []).2.2 = [(2, [])] ∧
    (emit ((emit (once (on' init 1 2).1 1 3).1 1 []).1) 1 []).2.1 = true :=
  on_once_emit_twice 1 3 2 (by decide)

end EasyEmit

namespace EasyEmit

theorem offOn_spec (s : EmitterState) (e : Event) (f : Listener) :
    (offOn s e f).onceListeners = s.onceListeners ∧
    (offOn s e f).maxListeners = s.maxListeners ∧
    jsGet (offOn s e f).onListeners e = (jsGet s.onListeners e).map (fun pl => pl.erase f) ∧
    ∀ e', e' ≠ e → jsGet (offOn s e f).onListeners e' = jsGet s.onListeners e' := by
  cases hpl : jsGet s.onListeners e with
  | none => simp [offOn, hpl]
  | some pl =>
    cases hj : jsIndexOf f pl with
    | none =>
      simp [offOn, hpl, hj, List.erase_of_not_mem ((jsIndexOf_eq_none f pl).mp hj)]
    | some j =>
      simp only [offOn, hpl, hj]
      refine ⟨trivial, trivial, ?_, ?_⟩
      · simp [jsGet_objSet_self, eraseIdx_jsIndexOf hj]
      · intro e' he'
        simpa using jsGet_objSet_ne s.onListeners (Ne.symm he') _

/-- C1 (amended): `off(e, f)` — and its alias `removeListener` — first
inspects the one-shot list when one exists: if f is absent from it the call
returns at once and removes nothing, not even from the persistent list; if f
is found there, the first matching one-shot entry is removed and then the
persistent list also loses its first entry matching f, so a single call can
remove up to two entries.  Only when no one-shot list exists is the
persistent list searched on its own, losing its first matching entry.
Other events' lists and the threshold are never touched. -/
theorem off_once_first_then_persistent (s : EmitterState) (e : Event) (f : Listener) :
    removeListener = off ∧
    (∀ ol, jsGet s.onceListeners e = some ol → f ∉ ol → off s e f = s) ∧
    (∀ ol, jsGet s.onceListeners e = some ol → f ∈ ol →
      jsGet (off s e f).onceListeners e = some (ol.erase f) ∧
      jsGet (off s e f).onListeners e = (jsGet s.onListeners e).map (fun pl => pl.erase f)) ∧
    (jsGet s.onceListeners e = none →
      jsGet (off s e f).onceListeners e = none ∧
      jsGet (off s e f).onListeners e = (jsGet s.onListeners e).map (fun pl => pl.erase f)) ∧
    (off s e f).maxListeners = s.maxListeners ∧
    (∀ e', e' ≠ e → jsGet (off s e f).onListeners e' = jsGet s.onListeners e' ∧
      jsGet (off s e f).onceListeners e' = jsGet s.onceListeners e') := by
  refine ⟨rfl, ?_, ?_, ?_, ?_, ?_⟩
  · intro ol hol hmem
    simp [off, hol, (jsIndexOf_eq_none f ol).mpr hmem]
  · intro ol hol hmem
    cases hidx : jsIndexOf f ol with
    | none => exact absurd ((jsIndexOf_eq_none f ol).mp hidx) (not_not_intro hmem)
    | some i =>
      simp only [off, hol, hidx]
      set s1 : EmitterState :=
        { s with onceListeners := objSet s.onceListeners e (some (ol.eraseIdx i)) } with hs1
      have hspec := offOn_spec s1 e f
      constructor
      · rw [hspec.1]
        simp [hs1, jsGet_objSet_self, eraseIdx_jsIndexOf hidx]
      · rw [hspec.2.2.1]
  · intro hol
    simp only [off, hol]
    have hspec := offOn_spec s e f
    exact ⟨by rw [hspec.1]; exact hol, hspec.2.2.1⟩
  · cases hol : jsGet s.onceListeners e with
    | none =>
      simp only [off, hol]
      exact (offOn_spec s e f).2.1
    | some ol =>
      cases hidx : jsIndexOf f ol with
      | none => simp [off, hol, hidx]
      | some i =>
        simp only [off, hol, hidx]
        exact (offOn_spec _ e f).2.1
  · intro e' he'
    cases hol : jsGet s.onceListeners e with
    | none =>
      simp only [off, hol]
      exact ⟨(offOn_spec s e f).2.2.2 e' he', by rw [(offOn_spec s e f).1]⟩
    | some ol =>
      cases hidx : jsIndexOf f ol with
      | none => simp [off, hol, hidx]
      | some i =>
        simp only [off, hol, hidx]
        set s1 : EmitterState :=
          { s with onceListeners := objSet s.onceListeners e (some (ol.eraseIdx i)) } with hs1
        refine ⟨(offOn_spec s1 e f).2.2.2 e' he', ?_⟩
        rw [(offOn_spec s1 e f).1]
        simpa [hs1] using jsGet_objSet_ne s.onceListeners (Ne.symm he') _

/-- C1 witness: the amended theorem applied at concrete states — a miss in
the existing one-shot list [20] leaves the state with persistent [10]
untouched, and a hit with listener 10 in both lists removes it from both. -/
theorem off_once_first_then_persistent_witness :
    off ⟨[(1, some [10])], [(1, some [20])], 10⟩ 1 10 =
      ⟨[(1, some [10])], [(1, some [20])], 10⟩ ∧
    (jsGet (off ⟨[(1, some [10])], [(1, some [10])], 10⟩ 1 10).onceListeners 1 =
      some (List.erase [10] 10) ∧
     jsGet (off ⟨[(1, some [10])], [(1, some [10])], 10⟩ 1 10).onListeners 1 =
      (jsGet [(1, some [10])] 1).map (fun pl => pl.erase 10)) :=
  ⟨(off_once_first_then_persistent ⟨[(1, some [10])], [(1, some [20])], 10⟩ 1 10).2.1
      [20] rfl (by decide),
   (off_once_first_then_persistent ⟨[(1, some [10])], [(1, some [10])], 10⟩ 1 10).2.2.1
      [10] rfl (by decide)⟩

end EasyEmit

namespace EasyEmit

theorem ite_pair_snd {c : Prop} [Decidable c] (a : EmitterState) (x y : Option String) :
    (if c then (a, x) else (a, y)).2 = if c then x else y := by
  split <;> rfl

theorem on_err_eq (s : EmitterState) (e : Event) (f : Listener) :
    (on' s e f).2 =
      if ((jsGet s.onListeners e).getD []).length + 1 > s.maxListeners
      then some (limitMessage (((jsGet s.onListeners e).getD []).length + 1))
      else none := by
  by_cases h : jsGet s.onListeners e = none
  · simp [on', h, jsGet_objSet_self, ite_pair_snd]
  · obtain ⟨pl, hpl⟩ := Option.ne_none_iff_exists'.mp h
    simp [on', hpl, jsGet_objSet_self, ite_pair_snd]

theorem once_err_eq (s : EmitterState) (e : Event) (f : Listener) :
    (once s e f).2 =
      if ((jsGet s.onceListeners e).getD []).length + 1 > s.maxListeners
      then some (limitMessage (((jsGet s.onceListeners e).getD []).length + 1))
      else none := by
  by_cases h : jsGet s.onceListeners e = none
  · simp [once, h, jsGet_objSet_self, ite_pair_snd]
  · obtain ⟨ol, hol⟩ := Option.ne_none_iff_exists'.mp h
    simp [once, hol, jsGet_objSet_self, ite_pair_snd]

theorem prepend_err_eq (s : EmitterState) (e : Event) (f : Listener) :
    (prependListener s e f).2 =
      if ((jsGet s.onListeners e).getD []).length + 1 > s.maxListeners
      then some (limitMessage (((jsGet s.onListeners e).getD []).length + 1))
      else none := by
  by_cases h : jsGet s.onListeners e = none
  · simp [prependListener, h, jsGet_objSet_self, ite_pair_snd]
  · obtain ⟨pl, hpl⟩ := Option.ne_none_iff_exists'.mp h
    simp [prependListener, hpl, jsGet_objSet_self, ite_pair_snd]

theorem prependOnce_err_eq (s : EmitterState) (e : Event) (f : Listener) :
    (prependOnceListener s e f).2 =
      if ((jsGet s.onceListeners e).getD []).length + 1 > s.maxListeners
      then some (limitMessage (((jsGet s.onceListeners e).getD []).length + 1))
      else none := by
  by_cases h : jsGet s.onceListeners e = none
  · simp [prependOnceListener, h, jsGet_objSet_self, ite_pair_snd]
  · obtain ⟨ol, hol⟩ := Option.ne_none_iff_exists'.mp h
    simp [prependOnceListener, hol, jsGet_objSet_self, ite_pair_snd]

/-- C6 (amended): the error raised by the four add operations carries the
post-insertion count of the overflowing list, interpolated into an otherwise
fixed message template — but not the identifier of the event: `limitMessage`
is a function of the count alone (the template reads the literal word
\x22test\x22 where the event name would appear), so the raised error is
identical for any two events with equal post-insertion counts. -/
theorem limit_error_carries_count_only (s : EmitterState) (e : Event) (f : Listener) :
    (∀ n, ((jsGet s.onListeners e).getD []).length + 1 = n → n > s.maxListeners →
      (on' s e f).2 = some (limitMessage n) ∧
      (prependListener s e f).2 = some (limitMessage n)) ∧
    (∀ n, ((jsGet s.onceListeners e).getD []).length + 1 = n → n > s.maxListeners →
      (once s e f).2 = some (limitMessage n) ∧
      (prependOnceListener s e f).2 = some (limitMessage n)) := by
  constructor
  · intro n hn hlt
    subst hn
    exact ⟨by rw [on_err_eq]; exact if_pos hlt, by rw [prepend_err_eq]; exact if_pos hlt⟩
  · intro n hn hlt
    subst hn
    exact ⟨by rw [once_err_eq]; exact if_pos hlt, by rw [prependOnce_err_eq]; exact if_pos hlt⟩

/-- C6 witness: the amended theorem applied with threshold 0 at event 5 —
the raised errors are `limitMessage 1` for both add flavours. -/
theorem limit_error_carries_count_only_witness :
    (on' ⟨[], [], 0⟩ 5 9).2 = some (limitMessage 1) ∧
    (prependListener ⟨[], [], 0⟩ 5 9).2 = some (limitMessage 1) :=
  (limit_error_carries_count_only ⟨[], [], 0⟩ 5 9).1 1 (by decide) (by decide)

/-- C3 witness: the gate theorem applied at concrete registries — a registry
with only a one-shot listener for event 1 emits to false with no calls, and
a registry with persistent listener 7 for event 5 emits to true with the
call log led by (7, [2]). -/
theorem emit_persistent_gate_witness :
    emit ⟨[], [(1, some [9])], 10⟩ 1 [] = (⟨[], [(1, some [9])], 10⟩, false, []) ∧
    ((emit ⟨[(5, some [7])], [], 3⟩ 5 [2]).2.1 = true ∧
      ∃ rest, (emit ⟨[(5, some [7])], [], 3⟩ 5 [2]).2.2 =
        List.map (fun f => (f, [2])) [7] ++ rest) :=
  ⟨(emit_persistent_gate ⟨[], [(1, some [9])], 10⟩ 1 []).1 rfl,
   (emit_persistent_gate ⟨[(5, some [7])], [], 3⟩ 5 [2]).2.2.1 [7] rfl (by decide)⟩

end EasyEmit

namespace EasyEmit

theorem firstOccs_congr : ∀ (l : List Event) {s1 s2 : List Event},
    (∀ y, y ∈ s1 ↔ y ∈ s2) → firstOccs s1 l = firstOccs s2 l := by
  intro l
  induction l with
  | nil => intro s1 s2 h; rfl
  | cons x xs ih =>
    intro s1 s2 h
    by_cases hx : x ∈ s1
    · simp only [firstOccs, if_pos hx, if_pos ((h x).mp hx)]
      exact ih h
    · simp only [firstOccs, if_neg hx, if_neg (fun hc => hx ((h x).mpr hc))]
      congr 1
      apply ih
      intro y
      simp only [List.mem_append]
      exact or_congr (h y) Iff.rfl

theorem firstOccs_append : ∀ (A seen B : List Event),
    firstOccs seen (A ++ B) = firstOccs seen A ++ firstOccs (seen ++ A) B := by
  intro A
  induction A with
  | nil => intro seen B; simp [firstOccs]
  | cons x A' ih =>
    intro seen B
    by_cases hx : x ∈ seen
    · simp only [List.cons_append, firstOccs, if_pos hx, List.append_eq]
      rw [ih]
      congr 1
      apply firstOccs_congr
      intro y
      constructor
      · intro hy
        rcases List.mem_append.mp hy with h | h
        · exact List.mem_append.mpr (Or.inl h)
        · exact List.mem_append.mpr (Or.inr (List.mem_cons_of_mem x h))
      · intro hy
        rcases List.mem_append.mp hy with h | h
        · exact List.mem_append.mpr (Or.inl h)
        · rcases List.mem_cons.mp h with rfl | h
          · exact List.mem_append.mpr (Or.inl hx)
          · exact List.mem_append.mpr (Or.inr h)
    · simp only [List.cons_append, firstOccs, if_neg hx, List.append_eq]
      rw [ih (seen ++ [x]) B]
      have hre : (seen ++ [x]) ++ A' = seen ++ x :: A' := by simp
      rw [hre]

theorem firstOccs_filter_subset : ∀ (B s seen : List Event),
    (∀ y, y ∈ s → y ∈ seen) →
    firstOccs seen (B.filter (fun b => ¬ b ∈ s)) = firstOccs seen B := by
  intro B
  induction B with
  | nil => intro s seen h; rfl
  | cons x B' ih =>
    intro s seen h
    by_cases hxs : x ∈ s
    · have hxseen : x ∈ seen := h x hxs
      rw [List.filter_cons_of_neg (by simp [hxs])]
      rw [ih s seen h]
      simp [firstOccs, hxseen]
    · rw [List.filter_cons_of_pos (by simp [hxs])]
      simp only [firstOccs]
      by_cases hxseen : x ∈ seen
      · rw [if_pos hxseen, if_pos hxseen]
        exact ih s seen h
      · rw [if_neg hxseen, if_neg hxseen]
        congr 1
        exact ih s (seen ++ [x]) (fun y hy => List.mem_append.mpr (Or.inl (h y hy)))

theorem firstOccs_eq_dedupFirst : ∀ (l seen : List Event),
    firstOccs seen l = dedupFirst (l.filter (fun y => ¬ y ∈ seen)) := by
  intro l
  induction l with
  | nil => intro seen; simp [dedupFirst, firstOccs]
  | cons x xs ih =>
    intro seen
    by_cases hx : x ∈ seen
    · rw [List.filter_cons_of_neg (by simp [hx])]
      simp only [firstOccs, if_pos hx]
      exact ih seen
    · rw [List.filter_cons_of_pos (by simp [hx])]
      simp only [firstOccs, if_neg hx, dedupFirst]
      congr 1
      rw [ih (seen ++ [x])]
      congr 1
      rw [List.filter_filter]
      apply List.filter_congr
      intro a _
      by_cases h1 : a = x <;> by_cases h2 : a ∈ seen <;>
        simp [h1, h2, List.mem_append]

theorem dedupFirst_eq_firstOccs (l : List Event) : dedupFirst l = firstOccs [] l := by
  rw [firstOccs_eq_dedupFirst]
  congr 1
  exact (List.filter_eq_self.mpr (by simp)).symm

theorem dedupJS_aux : ∀ (post pre : List Event),
    ((List.enumFrom pre.length post).filter
        (fun p => jsIndexOf p.2 (pre ++ post) = some p.1)).map Prod.snd =
      firstOccs pre post := by
  intro post
  induction post with
  | nil => intro pre; rfl
  | cons x xs ih =>
    intro pre
    have hsplit : pre ++ x :: xs = (pre ++ [x]) ++ xs := by simp
    have hlen : pre.length + 1 = (pre ++ [x]).length := by simp
    by_cases hx : x ∈ pre
    · have hne : ¬ (jsIndexOf x (pre ++ x :: xs) = some pre.length) := by
        rw [jsIndexOf_append_of_mem hx]
        cases hpre : jsIndexOf x pre with
        | none => simp
        | some i =>
          have := jsIndexOf_lt_length hpre
          simp only [Option.some.injEq]
          omega
      show (((pre.length, x) :: List.enumFrom (pre.length + 1) xs).filter
          (fun p => jsIndexOf p.2 (pre ++ x :: xs) = some p.1)).map Prod.snd =
        firstOccs pre (x :: xs)
      rw [List.filter_cons_of_neg (by simp [hne])]
      rw [hsplit, hlen, ih (pre ++ [x])]
      rw [firstOccs_congr xs (fun y => by
        simp only [List.mem_append, List.mem_singleton]
        constructor
        · rintro (hy | rfl)
          · exact hy
          · exact hx
        · intro hy
          exact Or.inl hy)]
      simp [firstOccs, hx]
    · have hidx : jsIndexOf x (pre ++ x :: xs) = some pre.length := by
        rw [jsIndexOf_append_of_not_mem hx]
        simp [jsIndexOf]
      show (((pre.length, x) :: List.enumFrom (pre.length + 1) xs).filter
          (fun p => jsIndexOf p.2 (pre ++ x :: xs) = some p.1)).map Prod.snd =
        firstOccs pre (x :: xs)
      rw [List.filter_cons_of_pos (by simp [hidx])]
      rw [List.map_cons]
      rw [hsplit, hlen, ih (pre ++ [x])]
      simp [firstOccs, hx]

theorem dedupJS_eq_dedupFirst (l : List Event) : dedupJS l = dedupFirst l := by
  rw [dedupFirst_eq_firstOccs]
  exact dedupJS_aux l []

end EasyEmit

namespace EasyEmit

/-- C8: `eventNames()` returns the de-duplicated union as claimed — the keys
of the persistent mapping whose value is not the removed sentinel, followed
by the (likewise live) keys unique to the one-shot mapping, concatenated and
de-duplicated preserving first occurrence; and concretely, after on(a, f1),
on(a, f2), once(a, f3) on a fresh registry it returns exactly [a]. -/
theorem eventNames_dedup_union :
    (∀ s, eventNames s = eventNamesSpec s) ∧
    eventNames (once (on' (on' init 1 10).1 1 11).1 1 12).1 = [1] := by
  constructor
  · intro s
    unfold eventNames eventNamesSpec
    rw [dedupJS_eq_dedupFirst, dedupFirst_eq_firstOccs, dedupFirst_eq_firstOccs]
    rw [firstOccs_append, firstOccs_append]
    simp only [List.nil_append]
    congr 1
    exact (firstOccs_filter_subset _ _ _ (fun y hy => hy)).symm
  · decide

end EasyEmit
